import Mathlib

/-!
Verification of the task-list state manager of a single-screen to-do
application (source: src/app/(tabs)/index.tsx, component HomeScreen).
The component state (tasks, text, filter, editingId, editingText) and the
callbacks addTask, toggleTask, deleteTask, startEditing, commitEditing,
cancelEditing, the derived filteredTasks and the counters total/completed
are embedded as pure Lean functions.  The environment samples consumed by
addTask (Date.now and Math.random) are passed explicitly; the JSON.parse
builtin used by the load effect is modelled by an executable parser.
-/

namespace Todo

/-- Mirrors `type Task = { id: string; title: string; completed: boolean }`. -/
structure Task where
  id : String
  title : String
  completed : Bool
  deriving Repr, DecidableEq

/-- Mirrors `type Filter = 'all' | 'active' | 'completed'`. -/
inductive Filter where
  | all
  | active
  | completed
  deriving Repr, DecidableEq

/-- The React state of HomeScreen: `tasks`, `text` (pending input),
`filter`, `editingId`, `editingText`. -/
structure AppState where
  tasks : List Task
  text : String
  filter : Filter
  editingId : Option String
  editingText : String
  deriving Repr, DecidableEq

/-- The useState initial values: `[]`, `''`, `'all'`, `null`, `''`. -/
def initialState : AppState :=
  { tasks := [], text := "", filter := Filter.all
    editingId := none, editingText := "" }

/-- One sample of the environment consumed by a single addTask call:
the value of `Date.now()` (milliseconds) and the `Math.random()` draw
(represented by an abstract natural; only determinism matters). -/
structure Env where
  now : Nat
  rand : Nat
  deriving Repr, DecidableEq

/-- Models `(Date.now() + Math.random()).toString()`: a deterministic
string determined by the environment sample.  The source puts no other
input into the id. -/
def genId (e : Env) : String :=
  toString e.now ++ "." ++ toString e.rand

/-- The character class stripped by the JavaScript trim builtin:
ECMAScript WhiteSpace and LineTerminator code points. -/
def jsIsWs (c : Char) : Bool :=
  c.toNat = 9 || c.toNat = 10 || c.toNat = 11 || c.toNat = 12 ||
  c.toNat = 13 || c.toNat = 32 || c.toNat = 160 || c.toNat = 5760 ||
  (8192 ≤ c.toNat && c.toNat ≤ 8202) || c.toNat = 8232 ||
  c.toNat = 8233 || c.toNat = 8239 || c.toNat = 8287 ||
  c.toNat = 12288 || c.toNat = 65279

/-- Model of the JavaScript builtin `String.prototype.trim` (an external
collaborator): strips the whitespace class from both ends. -/
def jsTrim (s : String) : String :=
  String.mk (((s.data.dropWhile jsIsWs).reverse.dropWhile jsIsWs).reverse)

/-- `addTask`: trims `text`; if the result is empty it returns without
touching any state; otherwise it builds `{ id, title, completed: false }`,
prepends it to `tasks` and clears `text`. -/
def addTask (e : Env) (s : AppState) : AppState :=
  let title := jsTrim s.text
  if title = "" then s
  else
    { s with
      tasks := { id := genId e, title := title, completed := false } :: s.tasks,
      text := "" }

/-- `toggleTask(id)`: maps over `tasks`, flipping `completed` on every
entry whose id matches. -/
def toggleTask (id : String) (s : AppState) : AppState :=
  { s with
    tasks := s.tasks.map fun t =>
      if t.id = id then { t with completed := !t.completed } else t }

/-- `deleteTask(id)`: keeps the entries whose id differs. -/
def deleteTask (id : String) (s : AppState) : AppState :=
  { s with tasks := s.tasks.filter fun t => t.id ≠ id }

/-- `startEditing(task)`: receives the task record itself (not an id) and
unconditionally sets `editingId` and `editingText` from it. -/
def startEditing (task : Task) (s : AppState) : AppState :=
  { s with editingId := some task.id, editingText := task.title }

/-- `commitEditing`: the guard `if (!editingId) return` is a falsiness
test on `string | null`, so it returns early — leaving every state field,
the open session included, untouched — both when `editingId` is null and
when it is the empty string.  Past the guard it trims the draft; if
empty, it closes the session without touching `tasks`; otherwise it
rewrites the title of every task whose id matches and closes the
session. -/
def commitEditing (s : AppState) : AppState :=
  match s.editingId with
  | none => s
  | some eid =>
    if eid = "" then s
    else
      let newTitle := jsTrim s.editingText
      if newTitle = "" then
        { s with editingId := none, editingText := "" }
      else
        { s with
          tasks := s.tasks.map fun t =>
            if t.id = eid then { t with title := newTitle } else t,
          editingId := none, editingText := "" }

/-- `cancelEditing`: closes the session, discarding the draft. -/
def cancelEditing (s : AppState) : AppState :=
  { s with editingId := none, editingText := "" }

/-- `setEditingText` (the useState setter handed to the row input). -/
def setEditingText (t : String) (s : AppState) : AppState :=
  { s with editingText := t }

/-- `setText` (the useState setter wired to the header input). -/
def setText (t : String) (s : AppState) : AppState :=
  { s with text := t }

/-- `setFilter` (wired to the filter chips). -/
def setFilter (f : Filter) (s : AppState) : AppState :=
  { s with filter := f }

/-- `filteredTasks`: the useMemo switch over `filter`; the default branch
returns `tasks` itself. -/
def filteredTasks (s : AppState) : List Task :=
  match s.filter with
  | Filter.active => s.tasks.filter fun t => !t.completed
  | Filter.completed => s.tasks.filter fun t => t.completed
  | Filter.all => s.tasks

/-- `const total = tasks.length`. -/
def total (s : AppState) : Nat := s.tasks.length

/-- `const completed = tasks.filter((t) => t.completed).length`. -/
def completedCount (s : AppState) : Nat :=
  (s.tasks.filter fun t => t.completed).length

end Todo

namespace Todo.Js

/-- A JavaScript JSON value.  Numbers are kept as their source lexeme so
that no floating-point arithmetic enters the model. -/
inductive Json where
  | null
  | bool (b : Bool)
  | num (lit : String)
  | str (s : String)
  | arr (elems : List Json)
  | obj (fields : List (String × Json))
  deriving Repr

/-- The opening brace character. -/
def lbrace : Char := Char.ofNat 123

/-- The closing brace character. -/
def rbrace : Char := Char.ofNat 125

/-- JSON insignificant whitespace. -/
def isJsonWs (c : Char) : Bool :=
  c = ' ' || c = '\t' || c = '\n' || c = '\r'

/-- Drop leading JSON whitespace. -/
def skipWs : List Char → List Char
  | [] => []
  | c :: cs => if isJsonWs c then skipWs cs else c :: cs

/-- ASCII digit test. -/
def isDigitCh (c : Char) : Bool := '0' ≤ c && c ≤ '9'

/-- Split a leading run of digits from the rest. -/
def takeDigits : List Char → (List Char × List Char)
  | [] => ([], [])
  | c :: cs =>
    if isDigitCh c then
      let r := takeDigits cs
      (c :: r.1, r.2)
    else ([], c :: cs)

/-- JSON integer part: `0`, or a nonzero digit followed by digits. -/
def parseIntPart : List Char → Option (List Char × List Char)
  | [] => none
  | c :: cs =>
    if c = '0' then some ([c], cs)
    else if isDigitCh c then
      let r := takeDigits cs
      some (c :: r.1, r.2)
    else none

/-- Optional JSON fraction part: `.` followed by one or more digits. -/
def parseFracPart : List Char → Option (List Char × List Char)
  | [] => some ([], [])
  | c :: cs =>
    if c = '.' then
      match cs with
      | [] => none
      | d :: ds =>
        if isDigitCh d then
          let r := takeDigits ds
          some (c :: d :: r.1, r.2)
        else none
    else some ([], c :: cs)

/-- Optional JSON exponent part: `e`/`E`, optional sign, digits. -/
def parseExpPart : List Char → Option (List Char × List Char)
  | [] => some ([], [])
  | c :: cs =>
    if c = 'e' || c = 'E' then
      let body :=
        match cs with
        | s :: rest => if s = '+' || s = '-' then (s :: [], rest) else ([], s :: rest)
        | [] => ([], [])
      match body.2 with
      | [] => none
      | d :: ds =>
        if isDigitCh d then
          let r := takeDigits ds
          some (c :: body.1 ++ d :: r.1, r.2)
        else none
    else some ([], c :: cs)

/-- JSON number lexeme starting at the head (after an optional `-` that
the caller has already consumed into `neg`). -/
def parseNumber (neg : Bool) (cs : List Char) : Option (String × List Char) :=
  match parseIntPart cs with
  | none => none
  | some (ip, r1) =>
    match parseFracPart r1 with
    | none => none
    | some (fp, r2) =>
      match parseExpPart r2 with
      | none => none
      | some (ep, r3) =>
        let lex := (if neg then ['-'] else []) ++ ip ++ fp ++ ep
        some (String.mk lex, r3)

/-- Body of a JSON string literal, after the opening quote; returns the
decoded characters and the input after the closing quote.  Covers the
escape forms other than unicode escapes. -/
def parseStringBody : List Char → Option (List Char × List Char)
  | [] => none
  | c :: cs =>
    if c = '"' then some ([], cs)
    else if c = '\\' then
      match cs with
      | [] => none
      | e :: cs2 =>
        let esc : Option Char :=
          if e = '"' then some '"'
          else if e = '\\' then some '\\'
          else if e = '/' then some '/'
          else if e = 'n' then some '\n'
          else if e = 't' then some '\t'
          else if e = 'r' then some '\r'
          else if e = 'b' then some (Char.ofNat 8)
          else if e = 'f' then some (Char.ofNat 12)
          else none
        match esc with
        | none => none
        | some ch =>
          match parseStringBody cs2 with
          | none => none
          | some (body, rest) => some (ch :: body, rest)
    else if c.toNat < 32 then none
    else
      match parseStringBody cs with
      | none => none
      | some (body, rest) => some (c :: body, rest)

/-- A frame of the container stack of the JSON machine: an array being
filled, or an object being filled whose current member key is `key`. -/
inductive Frame where
  | arrF (acc : List Json)
  | objF (acc : List (String × Json)) (key : String)

/-- Expect `: value` after an object key: consumes the colon and pushes
the object frame, handing control back to the value phase. -/
def afterKey (acc : List (String × Json)) (key : String) (cs : List Char) :
    Option (List Frame → List Frame × List Char) :=
  match skipWs cs with
  | ':' :: rest => some fun st => (Frame.objF acc key :: st, rest)
  | _ => none

/-- One fueled run of the JSON machine.  `got = none` means a value is
expected next; `got = some v` means value `v` was just completed and the
surrounding container (the stack) decides what follows. -/
def runParse (fuel : Nat) (st : List Frame) (got : Option Json)
    (cs : List Char) : Option Json :=
  match fuel with
  | 0 => none
  | fuel + 1 =>
    match got with
    | some v =>
      match st with
      | [] =>
        match skipWs cs with
        | [] => some v
        | _ => none
      | Frame.arrF acc :: st' =>
        match skipWs cs with
        | c :: rest =>
          if c = ']' then
            runParse fuel st' (some (Json.arr (v :: acc).reverse)) rest
          else if c = ',' then
            runParse fuel (Frame.arrF (v :: acc) :: st') none rest
          else none
        | [] => none
      | Frame.objF acc key :: st' =>
        match skipWs cs with
        | c :: rest =>
          if c = rbrace then
            runParse fuel st'
              (some (Json.obj ((key, v) :: acc).reverse)) rest
          else if c = ',' then
            match skipWs rest with
            | '"' :: rest2 =>
              match parseStringBody rest2 with
              | none => none
              | some (kcs, rest3) =>
                match afterKey ((key, v) :: acc) (String.mk kcs) rest3 with
                | none => none
                | some push =>
                  let p := push st'
                  runParse fuel p.1 none p.2
            | _ => none
          else none
        | [] => none
    | none =>
      match skipWs cs with
      | [] => none
      | c :: rest =>
        if c = 'n' then
          match rest with
          | 'u' :: 'l' :: 'l' :: rest2 =>
            runParse fuel st (some Json.null) rest2
          | _ => none
        else if c = 't' then
          match rest with
          | 'r' :: 'u' :: 'e' :: rest2 =>
            runParse fuel st (some (Json.bool true)) rest2
          | _ => none
        else if c = 'f' then
          match rest with
          | 'a' :: 'l' :: 's' :: 'e' :: rest2 =>
            runParse fuel st (some (Json.bool false)) rest2
          | _ => none
        else if c = '"' then
          match parseStringBody rest with
          | none => none
          | some (body, rest2) =>
            runParse fuel st (some (Json.str (String.mk body))) rest2
        else if c = '-' then
          match parseNumber true rest with
          | none => none
          | some (lex, rest2) => runParse fuel st (some (Json.num lex)) rest2
        else if isDigitCh c then
          match parseNumber false (c :: rest) with
          | none => none
          | some (lex, rest2) => runParse fuel st (some (Json.num lex)) rest2
        else if c = '[' then
          match skipWs rest with
          | ']' :: rest2 => runParse fuel st (some (Json.arr [])) rest2
          | _ => runParse fuel (Frame.arrF [] :: st) none rest
        else if c = lbrace then
          match skipWs rest with
          | d :: rest2 =>
            if d = rbrace then
              runParse fuel st (some (Json.obj [])) rest2
            else if d = '"' then
              match parseStringBody rest2 with
              | none => none
              | some (kcs, rest3) =>
                match afterKey [] (String.mk kcs) rest3 with
                | none => none
                | some push =>
                  let p := push st
                  runParse fuel p.1 none p.2
            else none
          | [] => none
        else none

/-- Model of the JavaScript builtin `JSON.parse` (an external collaborator
of the repository) on the JSON grammar: `Except.error` exactly where the
builtin throws a SyntaxError.  Unicode escapes in string literals are the
one form the model leaves out (it treats them as malformed). -/
def jsonParse (s : String) : Except Unit Json :=
  match runParse (2 * s.length + 4) [] none s.data with
  | some j => Except.ok j
  | none => Except.error ()

end Todo.Js

namespace Todo

open Todo.Js

/-- Outcome of the load effect on the `tasks` state variable. -/
inductive LoadOutcome where
  | unchanged
  | replaced (j : Json)
  deriving Repr

/-- What `setTasks(JSON.parse(raw))` does with the parse result: a throw
is caught by the surrounding try/catch, whose handler only logs, so the
state is left unchanged; a parsed value is installed as is. -/
def loadParsed : Except Unit Json → LoadOutcome
  | Except.ok j => LoadOutcome.replaced j
  | Except.error _ => LoadOutcome.unchanged

/-- The mount effect of HomeScreen: `raw = await AsyncStorage.getItem(KEY);
if (raw) { setTasks(JSON.parse(raw)) }` inside a try/catch whose handler
only logs.  `raw = none` models a null getItem result; the falsiness test
`if (raw)` also skips the empty string. -/
def loadEffect (raw : Option String) : LoadOutcome :=
  match raw with
  | none => LoadOutcome.unchanged
  | some str =>
    if str = "" then LoadOutcome.unchanged
    else loadParsed (jsonParse str)

/-- Decode one JSON value as a task record
`{ id: string, title: string, completed: boolean }`; formalizes the
record format of the data model. -/
def decodeTask (j : Json) : Option Task :=
  match j with
  | Json.obj fields =>
    match fields.lookup "id", fields.lookup "title", fields.lookup "completed" with
    | some (Json.str i), some (Json.str t), some (Json.bool c) =>
      some { id := i, title := t, completed := c }
    | _, _, _ => none
  | _ => none

/-- Decode a JSON value as a task list: the task-list format of the
claim, an array each of whose elements is a task record. -/
def decodeTasks (j : Json) : Option (List Task) :=
  match j with
  | Json.arr js => js.mapM decodeTask
  | _ => none

end Todo

namespace Todo

open Todo.Js

/-! Helper lemmas shared by the claim theorems. -/

/-- A map that fixes every element of a list is the identity on it. -/
theorem map_id_of_fixed {f : Task → Task} : ∀ {l : List Task},
    (∀ u ∈ l, f u = u) → l.map f = l := by
  intro l
  induction l with
  | nil => intro _; rfl
  | cons a tl ih =>
    intro h
    rw [List.map_cons, h a (List.mem_cons_self a tl),
      ih fun u hu => h u (List.mem_cons_of_mem a hu)]

/-- A filter whose predicate holds on every element of a list keeps the
list intact. -/
theorem filter_all_of_holds {p : Task → Bool} : ∀ {l : List Task},
    (∀ u ∈ l, p u = true) → l.filter p = l := by
  intro l
  induction l with
  | nil => intro _; rfl
  | cons a tl ih =>
    intro h
    rw [List.filter_cons, if_pos (h a (List.mem_cons_self a tl)),
      ih fun u hu => h u (List.mem_cons_of_mem a hu)]

/-- Around a split point of a list whose ids are pairwise distinct, every
task on either side carries an id different from the middle one. -/
theorem ids_ne_of_nodup_split {t : Task} {l₁ l₂ : List Task}
    (hn : ((l₁ ++ t :: l₂).map Task.id).Nodup) :
    (∀ u ∈ l₁, u.id ≠ t.id) ∧ ∀ u ∈ l₂, u.id ≠ t.id := by
  rw [List.map_append, List.map_cons, List.nodup_middle, List.nodup_cons] at hn
  have hmem : t.id ∉ l₁.map Task.id ++ l₂.map Task.id := hn.1
  rw [List.mem_append] at hmem
  push_neg at hmem
  constructor
  · intro u hu he
    exact hmem.1 (by rw [← he]; exact List.mem_map_of_mem Task.id hu)
  · intro u hu he
    exact hmem.2 (by rw [← he]; exact List.mem_map_of_mem Task.id hu)

/-- In a list of tasks with pairwise distinct ids, searching by the id of
a member finds exactly that member. -/
theorem find_by_id_eq {t : Task} : ∀ {l : List Task}, t ∈ l →
    (l.map Task.id).Nodup → l.find? (fun u => u.id = t.id) = some t := by
  intro l
  induction l with
  | nil => intro h; cases h
  | cons a tl ih =>
    intro hmem hn
    rw [List.map_cons, List.nodup_cons] at hn
    by_cases ha : a.id = t.id
    · have hat : a = t := by
        rcases List.mem_cons.mp hmem with rfl | htl
        · rfl
        · have : t.id ∈ tl.map Task.id := List.mem_map_of_mem Task.id htl
          rw [← ha] at this
          exact absurd this hn.1
      subst hat
      simp [List.find?]
    · have htl : t ∈ tl := by
        rcases List.mem_cons.mp hmem with rfl | htl
        · exact absurd rfl ha
        · exact htl
      rw [List.find?_cons]
      simp only [ha, decide_eq_true_eq, if_neg]
      · exact ih htl hn.2

/-! Claim theorems. -/

/-- Claim C1, counterexample: the persisted string "true" is valid JSON
that is not an array of task records, yet the load effect installs the
parsed value instead of leaving the in-memory list at its initial empty
value, because the source validates nothing after JSON.parse. -/
theorem loadEffect_counterexample :
    loadEffect (some "true") = LoadOutcome.replaced (Json.bool true) ∧
    decodeTasks (Json.bool true) = none ∧
    LoadOutcome.replaced (Json.bool true) ≠ LoadOutcome.unchanged :=
  ⟨rfl, rfl, fun h => LoadOutcome.noConfusion h⟩

/-- Claim C1 (amended): on load, an absent value or a string that
JSON.parse rejects leaves the task list at its initial empty value with no
error propagating; any string JSON.parse accepts replaces the list
wholesale by the parsed value, with no check that it is an array of task
records. -/
theorem loadEffect_cases (raw : Option String) :
    (raw = none → loadEffect raw = LoadOutcome.unchanged) ∧
    (∀ str, raw = some str → jsonParse str = Except.error () →
      loadEffect raw = LoadOutcome.unchanged) ∧
    (∀ str j, raw = some str → jsonParse str = Except.ok j →
      loadEffect raw = LoadOutcome.replaced j) := by
  refine ⟨?_, ?_, ?_⟩
  · rintro rfl; rfl
  · rintro str rfl herr
    by_cases hs : str = ""
    · subst hs; rfl
    · rw [show loadEffect (some str)
          = if str = "" then LoadOutcome.unchanged
            else loadParsed (jsonParse str) from rfl, if_neg hs, herr]
      rfl
  · rintro str j rfl hok
    by_cases hs : str = ""
    · subst hs
      rw [show jsonParse "" = Except.error () from rfl] at hok
      cases hok
    · rw [show loadEffect (some str)
          = if str = "" then LoadOutcome.unchanged
            else loadParsed (jsonParse str) from rfl, if_neg hs, hok]
      rfl

/-- Claim C1 witness: a malformed string degrades to the empty list and a
conforming string is installed. -/
theorem loadEffect_cases_witness :
    loadEffect (some "not json") = LoadOutcome.unchanged ∧
    loadEffect (some "[]") = LoadOutcome.replaced (Json.arr []) :=
  ⟨(loadEffect_cases (some "not json")).2.1 "not json" rfl rfl,
   (loadEffect_cases (some "[]")).2.2 "[]" (Json.arr []) rfl rfl⟩

/-- Claim C2, counterexample: two addTask calls that draw the same
Date.now and Math.random samples generate the same id, so the id of the
second task equals an id already in the list and uniqueness fails. -/
theorem addTask_duplicate_id :
    (addTask ⟨7, 3⟩ (setText "b" (addTask ⟨7, 3⟩
      (setText "a" initialState)))).tasks.map Task.id = ["7.3", "7.3"] ∧
    ¬ (["7.3", "7.3"] : List String).Nodup :=
  ⟨rfl, by decide⟩

/-- Claim C2 (amended): an addTask call preserves pairwise-distinct ids
exactly when the freshly generated id (a pure function of the Date.now and
Math.random samples) is not already in the list; the generator itself does
not guarantee this. -/
theorem addTask_fresh_id (e : Env) (s : AppState)
    (hfresh : genId e ∉ s.tasks.map Task.id)
    (hn : (s.tasks.map Task.id).Nodup) :
    ((addTask e s).tasks.map Task.id).Nodup := by
  by_cases h : jsTrim s.text = ""
  · simpa [addTask, h] using hn
  · have : (addTask e s).tasks
        = { id := genId e, title := jsTrim s.text, completed := false } :: s.tasks := by
      simp [addTask, h]
    rw [this, List.map_cons, List.nodup_cons]
    exact ⟨hfresh, hn⟩

/-- Claim C2 witness: a fresh sample keeps the ids of a one-task list
pairwise distinct. -/
theorem addTask_fresh_id_witness :
    genId ⟨5, 7⟩ ∉ (setText "a" initialState).tasks.map Task.id ∧
    ((setText "a" initialState).tasks.map Task.id).Nodup ∧
    ((addTask ⟨5, 7⟩ (setText "a" initialState)).tasks.map Task.id).Nodup :=
  ⟨by decide, by decide, addTask_fresh_id ⟨5, 7⟩ _ (by decide) (by decide)⟩

/-- Claim C3, counterexample: startEditing receives a task record and
opens an edit session unconditionally; called with a record whose id
matches no task in the (empty) list, the session still opens, so the
claimed guard does not exist in the code. -/
theorem startEditing_no_guard :
    (startEditing ⟨"ghost", "g", false⟩ initialState).editingId = some "ghost" ∧
    "ghost" ∉ initialState.tasks.map Task.id ∧
    (startEditing ⟨"ghost", "g", false⟩ initialState).editingId ≠ none := by
  decide

/-- Claim C3 (amended): startEditing takes the task record itself and
always opens a session seeded with that record's id and title; whenever
the record belongs to the list and ids are pairwise distinct (the only
calls the view makes), the draft equals the current title of the task
found by the matching id. -/
theorem startEditing_spec (task : Task) (s : AppState)
    (hmem : task ∈ s.tasks) (hn : (s.tasks.map Task.id).Nodup) :
    (startEditing task s).editingId = some task.id ∧
    (startEditing task s).editingText = task.title ∧
    (s.tasks.find? (fun u => u.id = task.id)).map Task.title = some task.title := by
  refine ⟨rfl, rfl, ?_⟩
  rw [find_by_id_eq hmem hn]
  rfl

/-- Claim C3 witness: starting an edit on a member task seeds the draft
with its current title. -/
theorem startEditing_spec_witness :
    (startEditing ⟨"1", "a", false⟩
      { initialState with tasks := [⟨"1", "a", false⟩] }).editingText = "a" :=
  (startEditing_spec ⟨"1", "a", false⟩
    { initialState with tasks := [⟨"1", "a", false⟩] }
    (by decide) (by decide)).2.1

/-- Claim C4: addTask with a whitespace-only input is a no-op, and with a
non-blank input it prepends exactly one new task whose title is the
trimmed input and whose completed flag is false. -/
theorem addTask_spec (e : Env) (s : AppState) :
    (jsTrim s.text = "" → addTask e s = s) ∧
    (jsTrim s.text ≠ "" →
      (addTask e s).tasks.length = s.tasks.length + 1 ∧
      ∃ t, (addTask e s).tasks = t :: s.tasks ∧
        t.title = jsTrim s.text ∧ t.completed = false) := by
  constructor
  · intro h; simp [addTask, h]
  · intro h
    have hcons : (addTask e s).tasks
        = { id := genId e, title := jsTrim s.text, completed := false } :: s.tasks := by
      simp [addTask, h]
    exact ⟨by rw [hcons]; rfl, ⟨_, hcons, rfl, rfl⟩⟩

/-- Claim C4 witness: a blank add is a no-op and a non-blank add grows
the list by one with the trimmed title at the head. -/
theorem addTask_spec_witness :
    addTask ⟨1, 2⟩ (setText "   " initialState) = setText "   " initialState ∧
    (addTask ⟨1, 2⟩ (setText " hi " initialState)).tasks.length
      = (setText " hi " initialState).tasks.length + 1 :=
  ⟨(addTask_spec ⟨1, 2⟩ (setText "   " initialState)).1 (by decide),
   ((addTask_spec ⟨1, 2⟩ (setText " hi " initialState)).2 (by decide)).1⟩

/-- Claim C5, counterexample: the guard `if (!editingId) return` tests
falsiness, so a session open on the empty-string task id (reachable, since
the unvalidated load path can install a task with id "") makes
commitEditing do nothing at all: with a non-blank draft the edited task's
title is not set and the session is not closed, contrary to the claim. -/
theorem commitEditing_counterexample :
    commitEditing ⟨[⟨"", "Old", false⟩], "", Filter.all, some "", "New"⟩
      = ⟨[⟨"", "Old", false⟩], "", Filter.all, some "", "New"⟩ ∧
    jsTrim "New" ≠ "" ∧
    (commitEditing ⟨[⟨"", "Old", false⟩], "", Filter.all,
      some "", "New"⟩).editingId ≠ none ∧
    (commitEditing ⟨[⟨"", "Old", false⟩], "", Filter.all,
      some "", "New"⟩).tasks.map Task.title = ["Old"] := by
  decide

/-- Claim C5 (amended): with no open session commitEditing is a no-op,
and likewise — state fully unchanged, session left open — when the open
session carries the empty-string task id, which the falsy guard treats
like no session.  With a session on any other id: a blank draft closes
the session leaving every task intact; a non-blank draft closes the
session and rewrites exactly the title of the tasks matching the edited
id, preserving ids, completion flags, and every other title. -/
theorem commitEditing_spec (s : AppState) :
    (s.editingId = none → commitEditing s = s) ∧
    (s.editingId = some "" → commitEditing s = s) ∧
    (∀ eid, s.editingId = some eid → eid ≠ "" → jsTrim s.editingText = "" →
      (commitEditing s).tasks = s.tasks ∧ (commitEditing s).editingId = none) ∧
    (∀ eid, s.editingId = some eid → eid ≠ "" → jsTrim s.editingText ≠ "" →
      (commitEditing s).editingId = none ∧
      (commitEditing s).tasks = s.tasks.map fun t =>
        { id := t.id,
          title := if t.id = eid then jsTrim s.editingText else t.title,
          completed := t.completed }) := by
  refine ⟨?_, ?_, ?_, ?_⟩
  · intro h; simp [commitEditing, h]
  · intro h; simp [commitEditing, h]
  · intro eid he hne ht
    constructor
    · simp [commitEditing, he, hne, ht]
    · simp [commitEditing, he, hne, ht]
  · intro eid he hne ht
    constructor
    · simp [commitEditing, he, hne, ht]
    · have : (commitEditing s).tasks = s.tasks.map fun t =>
          if t.id = eid then { t with title := jsTrim s.editingText } else t := by
        simp [commitEditing, he, hne, ht]
      rw [this]
      apply List.map_congr_left
      intro a _
      by_cases h : a.id = eid
      · simp [h]
      · simp [h]

/-- Claim C5 witness: committing the draft "  New Title  " over a session
on task id 1 writes exactly "New Title" and closes the session. -/
theorem commitEditing_spec_witness :
    (commitEditing ⟨[⟨"1", "Old", false⟩], "", Filter.all, some "1",
      "  New Title  "⟩).tasks = [⟨"1", "New Title", false⟩] ∧
    (commitEditing ⟨[⟨"1", "Old", false⟩], "", Filter.all, some "1",
      "  New Title  "⟩).editingId = none := by
  have h := (commitEditing_spec ⟨[⟨"1", "Old", false⟩], "", Filter.all,
      some "1", "  New Title  "⟩).2.2.2 "1" rfl (by decide) (by decide)
  exact ⟨h.2.trans (by decide), h.1⟩

/-- Claim C6: when ids are pairwise distinct, toggling the id of a member
task flips exactly that task's completed flag in place, keeping its id and
title and every other task; toggling any id twice restores the list; and
toggling an id absent from the list changes nothing and raises no error. -/
theorem toggleTask_spec (s : AppState) :
    (∀ t l₁ l₂, s.tasks = l₁ ++ t :: l₂ → (s.tasks.map Task.id).Nodup →
      (toggleTask t.id s).tasks =
        l₁ ++ { id := t.id, title := t.title, completed := !t.completed } :: l₂) ∧
    (∀ id, (toggleTask id (toggleTask id s)).tasks = s.tasks) ∧
    (∀ id, id ∉ s.tasks.map Task.id → toggleTask id s = s) := by
  refine ⟨?_, ?_, ?_⟩
  · intro t l₁ l₂ hsplit hn
    rw [hsplit] at hn
    have h12 := ids_ne_of_nodup_split hn
    have hview : (toggleTask t.id s).tasks = (l₁ ++ t :: l₂).map fun u =>
        if u.id = t.id then { u with completed := !u.completed } else u := by
      simp [toggleTask, hsplit]
    rw [hview, List.map_append, List.map_cons]
    rw [map_id_of_fixed fun u hu => if_neg (h12.1 u hu)]
    rw [map_id_of_fixed fun u hu => if_neg (h12.2 u hu)]
    rw [if_pos rfl]
  · intro id
    have hview : (toggleTask id (toggleTask id s)).tasks = (s.tasks.map fun u =>
        if u.id = id then { u with completed := !u.completed } else u).map fun u =>
        if u.id = id then { u with completed := !u.completed } else u := rfl
    rw [hview, List.map_map]
    apply map_id_of_fixed
    intro u _
    by_cases h : u.id = id
    · subst h
      simp [Function.comp]
    · simp [Function.comp, h]
  · intro id hid
    have hfix : (s.tasks.map fun u =>
        if u.id = id then { u with completed := !u.completed } else u) = s.tasks := by
      apply map_id_of_fixed
      intro u hu
      exact if_neg fun he => hid (by rw [← he]; exact List.mem_map_of_mem Task.id hu)
    show { s with tasks := _ } = s
    rw [hfix]

/-- Claim C6 witness: toggling a concrete member flips only it, and
toggling an absent id is a no-op. -/
theorem toggleTask_spec_witness :
    (toggleTask "1" { initialState with
        tasks := [⟨"1", "a", false⟩, ⟨"2", "b", true⟩] }).tasks
      = [⟨"1", "a", true⟩, ⟨"2", "b", true⟩] ∧
    toggleTask "9" { initialState with tasks := [⟨"1", "a", false⟩] }
      = { initialState with tasks := [⟨"1", "a", false⟩] } := by
  constructor
  · have h := (toggleTask_spec { initialState with
        tasks := [⟨"1", "a", false⟩, ⟨"2", "b", true⟩] }).1
      ⟨"1", "a", false⟩ [] [⟨"2", "b", true⟩] rfl (by decide)
    simpa using h
  · exact (toggleTask_spec { initialState with
      tasks := [⟨"1", "a", false⟩] }).2.2 "9" (by decide)

/-- Claim C7: when ids are pairwise distinct, deleting a present id
removes exactly the matching entry keeping the relative order of the
rest, deleting an absent id is a no-op, the length never drops by more
than one, and the result is always a sublist of the original. -/
theorem deleteTask_spec (id : String) (s : AppState) :
    (∀ t l₁ l₂, s.tasks = l₁ ++ t :: l₂ → t.id = id →
      (s.tasks.map Task.id).Nodup → (deleteTask id s).tasks = l₁ ++ l₂) ∧
    (id ∉ s.tasks.map Task.id → deleteTask id s = s) ∧
    ((s.tasks.map Task.id).Nodup →
      s.tasks.length ≤ (deleteTask id s).tasks.length + 1) ∧
    List.Sublist (deleteTask id s).tasks s.tasks := by
  have habsent : id ∉ s.tasks.map Task.id → deleteTask id s = s := by
    intro hid
    have hfix : (s.tasks.filter fun t => t.id ≠ id) = s.tasks := by
      apply filter_all_of_holds
      intro u hu
      simp only [ne_eq, decide_not, Bool.not_eq_eq_eq_not, Bool.not_true,
        decide_eq_false_iff_not]
      exact fun he => hid (by rw [← he]; exact List.mem_map_of_mem Task.id hu)
    show { s with tasks := _ } = s
    rw [hfix]
  have hpresent : ∀ t l₁ l₂, s.tasks = l₁ ++ t :: l₂ → t.id = id →
      (s.tasks.map Task.id).Nodup → (deleteTask id s).tasks = l₁ ++ l₂ := by
    intro t l₁ l₂ hsplit hid hn
    subst hid
    rw [hsplit] at hn
    have h12 := ids_ne_of_nodup_split hn
    have hview : (deleteTask t.id s).tasks
        = (l₁ ++ t :: l₂).filter fun u => u.id ≠ t.id := by
      simp [deleteTask, hsplit]
    rw [hview, List.filter_append, List.filter_cons]
    rw [filter_all_of_holds fun u hu => by
      simpa using h12.1 u hu]
    rw [filter_all_of_holds fun u hu => by
      simpa using h12.2 u hu]
    simp
  refine ⟨hpresent, habsent, ?_, ?_⟩
  · intro hn
    by_cases hid : id ∈ s.tasks.map Task.id
    · obtain ⟨u, hu, hue⟩ := List.mem_map.mp hid
      obtain ⟨l₁, l₂, hsplit⟩ := List.append_of_mem hu
      rw [hpresent u l₁ l₂ hsplit hue hn, hsplit]
      simp only [List.length_append, List.length_cons]
      omega
    · rw [habsent hid]
      exact Nat.le_succ _
  · exact List.filter_sublist s.tasks

/-- Claim C7 witness: deleting a present id removes exactly it; deleting
an absent id changes nothing. -/
theorem deleteTask_spec_witness :
    (deleteTask "1" { initialState with
        tasks := [⟨"0", "z", false⟩, ⟨"1", "a", false⟩, ⟨"2", "b", true⟩] }).tasks
      = [⟨"0", "z", false⟩, ⟨"2", "b", true⟩] ∧
    deleteTask "9" { initialState with tasks := [⟨"1", "a", false⟩] }
      = { initialState with tasks := [⟨"1", "a", false⟩] } := by
  constructor
  · have h := (deleteTask_spec "1" { initialState with
        tasks := [⟨"0", "z", false⟩, ⟨"1", "a", false⟩, ⟨"2", "b", true⟩] }).1
      ⟨"1", "a", false⟩ [⟨"0", "z", false⟩] [⟨"2", "b", true⟩] rfl rfl (by decide)
    simpa using h
  · exact (deleteTask_spec "9" { initialState with
      tasks := [⟨"1", "a", false⟩] }).2.1 (by decide)

/-- Claim C8: under the all filter the visible list is the full list in
order; under active it is exactly the entries whose completed flag is
false, in their relative order; under completed, exactly those whose
completed flag is true. -/
theorem filteredTasks_spec (s : AppState) :
    (s.filter = Filter.all → filteredTasks s = s.tasks) ∧
    (s.filter = Filter.active →
      List.Sublist (filteredTasks s) s.tasks ∧
      (∀ t, t ∈ filteredTasks s ↔ t ∈ s.tasks ∧ t.completed = false) ∧
      filteredTasks s = s.tasks.filter fun t => !t.completed) ∧
    (s.filter = Filter.completed →
      List.Sublist (filteredTasks s) s.tasks ∧
      (∀ t, t ∈ filteredTasks s ↔ t ∈ s.tasks ∧ t.completed = true) ∧
      filteredTasks s = s.tasks.filter fun t => t.completed) := by
  refine ⟨?_, ?_, ?_⟩
  · intro h; simp [filteredTasks, h]
  · intro h
    have hv : filteredTasks s = s.tasks.filter fun t => !t.completed := by
      simp [filteredTasks, h]
    refine ⟨hv ▸ List.filter_sublist s.tasks, ?_, hv⟩
    intro t
    rw [hv, List.mem_filter]
    simp
  · intro h
    have hv : filteredTasks s = s.tasks.filter fun t => t.completed := by
      simp [filteredTasks, h]
    refine ⟨hv ▸ List.filter_sublist s.tasks, ?_, hv⟩
    intro t
    rw [hv, List.mem_filter]

/-- Claim C8 witness: the three filters on a concrete two-task list. -/
theorem filteredTasks_spec_witness :
    filteredTasks ⟨[⟨"1", "a", false⟩, ⟨"2", "b", true⟩], "", Filter.all, none, ""⟩
      = [⟨"1", "a", false⟩, ⟨"2", "b", true⟩] ∧
    filteredTasks ⟨[⟨"1", "a", false⟩, ⟨"2", "b", true⟩], "", Filter.active, none, ""⟩
      = [⟨"1", "a", false⟩] ∧
    filteredTasks ⟨[⟨"1", "a", false⟩, ⟨"2", "b", true⟩], "", Filter.completed, none, ""⟩
      = [⟨"2", "b", true⟩] := by
  refine ⟨(filteredTasks_spec _).1 rfl, ?_, ?_⟩
  · have h := ((filteredTasks_spec
      ⟨[⟨"1", "a", false⟩, ⟨"2", "b", true⟩], "", Filter.active, none, ""⟩).2.1 rfl).2.2
    exact h.trans (by decide)
  · have h := ((filteredTasks_spec
      ⟨[⟨"1", "a", false⟩, ⟨"2", "b", true⟩], "", Filter.completed, none, ""⟩).2.2 rfl).2.2
    exact h.trans (by decide)

/-- Claim C9: whatever the current filter, the total counter is the full
list length, the completed counter counts the completed true entries of
the full list, and completed never exceeds total. -/
theorem counters_spec (s : AppState) (f : Filter) :
    total (setFilter f s) = s.tasks.length ∧
    completedCount (setFilter f s) = s.tasks.countP (fun t => t.completed) ∧
    completedCount (setFilter f s) ≤ total (setFilter f s) := by
  refine ⟨rfl, ?_, ?_⟩
  · rw [List.countP_eq_length_filter]
    rfl
  · exact List.length_filter_le _ _

/-- Claim C10: a successful addTask clears the pending input text (and
touches no other state field besides the task list), while a blank-input
addTask leaves the whole state, list and text included, unchanged. -/
theorem addTask_frame (e : Env) (s : AppState) :
    (jsTrim s.text = "" →
      (addTask e s).tasks = s.tasks ∧ (addTask e s).text = s.text) ∧
    (jsTrim s.text ≠ "" →
      (addTask e s).text = "" ∧
      (addTask e s).filter = s.filter ∧
      (addTask e s).editingId = s.editingId ∧
      (addTask e s).editingText = s.editingText) := by
  constructor
  · intro h; simp [addTask, h]
  · intro h; simp [addTask, h]

/-- Claim C10 witness: a blank add leaves list and text alone; a
successful add clears the text. -/
theorem addTask_frame_witness :
    (addTask ⟨1, 2⟩ (setText "  " initialState)).text = (setText "  " initialState).text ∧
    (addTask ⟨1, 2⟩ (setText " hi " initialState)).text = "" :=
  ⟨((addTask_frame ⟨1, 2⟩ (setText "  " initialState)).1 (by decide)).2,
   ((addTask_frame ⟨1, 2⟩ (setText " hi " initialState)).2 (by decide)).1⟩
